import Mathlib

/-!
Shallow embedding of the voxel-engine core (coordinate utilities, block
model, chunk store, terrain generation helpers, tree structure generator,
ambient occlusion and frustum visibility) together with proofs of the
specification claims. Machine floats are modelled by rationals: every
operation the embedded code performs on the relevant inputs (floor,
remainder, addition of small integers, division by the power of two 16)
is exact in binary floating point on those inputs, so the rational model
agrees with the f32 computation there.
-/

namespace Voxel

/-- Modelled from the spec: `CHUNK_SIZE` lives in the repository's `world`
module, which is not among the provided sources; the spec fixes the chunk
footprint at 16×16 ("chunk size 16" in the coordinate examples). -/
def CHUNK_SIZE : ℕ := 16

/-- A 3-component vector, the rational model of `glam::Vec3`. -/
structure Vec3 where
  x : ℚ
  y : ℚ
  z : ℚ
deriving DecidableEq, Repr

/-- Componentwise addition of `glam::Vec3`. -/
def Vec3.add (a b : Vec3) : Vec3 := ⟨a.x + b.x, a.y + b.y, a.z + b.z⟩

/-- Rust `%` on float values that are integers: truncated remainder. -/
def rustFmod (a b : ℤ) : ℤ := Int.tmod a b

/-- Rust float-to-unsigned-integer `as` cast: truncate toward zero and
saturate below at 0 (`Int.toNat` of the floor does exactly that, since
truncation of a non-negative value is its floor). -/
def rustCastUsize (q : ℚ) : ℕ := (⌊q⌋).toNat

/-- Rust float-to-`i32` `as` cast: truncation toward zero. -/
def rustCastI32 (q : ℚ) : ℤ := if q < 0 then ⌈q⌉ else ⌊q⌋

/-- The function `relative_from_absolute` (utils.rs): floors each component,
takes the truncated remainder by `CHUNK_SIZE` on x and z re-normalised into
`[0, CHUNK_SIZE)`, and clamps y below at 0. -/
def relative_from_absolute (p : Vec3) : Vec3 :=
  ⟨((rustFmod ⌊p.x⌋ (CHUNK_SIZE : ℤ) + (CHUNK_SIZE : ℤ)).tmod (CHUNK_SIZE : ℤ) : ℤ),
   (max ⌊p.y⌋ 0 : ℤ),
   ((rustFmod ⌊p.z⌋ (CHUNK_SIZE : ℤ) + (CHUNK_SIZE : ℤ)).tmod (CHUNK_SIZE : ℤ) : ℤ)⟩

/-- The function `get_chunk_from_position_absolute` (utils.rs): floor of
each horizontal component divided by `CHUNK_SIZE`. -/
def get_chunk_from_position_absolute (p : Vec3) : ℤ × ℤ :=
  (⌊p.x / (CHUNK_SIZE : ℚ)⌋, ⌊p.z / (CHUNK_SIZE : ℚ)⌋)

-- examples mirroring the repository's unit tests in utils.rs
example : get_chunk_from_position_absolute ⟨17, 0, 20⟩ = (1, 1) := by
  norm_num [get_chunk_from_position_absolute, CHUNK_SIZE, Int.floor_eq_iff]
example : get_chunk_from_position_absolute ⟨32, 0, 20⟩ = (2, 1) := by
  norm_num [get_chunk_from_position_absolute, CHUNK_SIZE, Int.floor_eq_iff]
example : get_chunk_from_position_absolute ⟨-5, 0, -20⟩ = (-1, -2) := by
  norm_num [get_chunk_from_position_absolute, CHUNK_SIZE, Int.floor_eq_iff]
example : relative_from_absolute ⟨17, 0, 20⟩ = ⟨1, 0, 4⟩ := by
  have h17 : ⌊(17 : ℚ)⌋ = 17 := by norm_num [Int.floor_eq_iff]
  have h0 : ⌊(0 : ℚ)⌋ = 0 := Int.floor_zero
  have h20 : ⌊(20 : ℚ)⌋ = 20 := by norm_num [Int.floor_eq_iff]
  simp only [relative_from_absolute, rustFmod, CHUNK_SIZE, h17, h0, h20]
  norm_num [show ((17 : ℤ).tmod 16 + 16).tmod 16 = 1 by decide,
    show ((20 : ℤ).tmod 16 + 16).tmod 16 = 4 by decide]
example : relative_from_absolute ⟨-1, 0, -1⟩ = ⟨15, 0, 15⟩ := by
  have hm1 : ⌊(-1 : ℚ)⌋ = -1 := by norm_num [Int.floor_eq_iff]
  have h0 : ⌊(0 : ℚ)⌋ = 0 := Int.floor_zero
  simp only [relative_from_absolute, rustFmod, CHUNK_SIZE, hm1, h0]
  norm_num [show ((-1 : ℤ).tmod 16 + 16).tmod 16 = 15 by decide]

/-- Bounds of the truncated remainder by 16. -/
theorem tmod16_bounds (a : ℤ) : -16 < a.tmod 16 ∧ a.tmod 16 < 16 := by
  cases a with
  | ofNat m =>
    simp only [Int.tmod, Int.ofNat_eq_coe]
    have := Nat.mod_lt m (y := 16) (by omega)
    omega
  | negSucc m =>
    simp only [Int.tmod, Int.ofNat_eq_coe]
    have := Nat.mod_lt (m + 1) (y := 16) (by omega)
    omega

/-- Re-normalised truncated remainder equals the Euclidean remainder. -/
theorem tmod_renorm_eq_emod (a : ℤ) :
    (a.tmod 16 + 16).tmod 16 = a % 16 := by
  have h1 := Int.tdiv_add_tmod a 16
  have hb := tmod16_bounds a
  rw [Int.tmod_eq_emod (by omega) (by omega)]
  have h2 : (a.tmod 16 + 16) % 16 = a.tmod 16 % 16 := by omega
  have h3 : a.tmod 16 % 16 = a % 16 := by
    conv_rhs => rw [← h1]
    omega
  rw [h2, h3]

/-- Floor of a rational divided by 16 is the Euclidean quotient of its
floor by 16. -/
theorem floor_div_sixteen (x : ℚ) : ⌊x / (16 : ℚ)⌋ = ⌊x⌋ / 16 := by
  have hfl := Int.floor_le x
  have hlt := Int.lt_floor_add_one x
  rw [Int.floor_eq_iff]
  constructor
  · rw [le_div_iff₀ (by norm_num : (0 : ℚ) < 16)]
    have h : ((⌊x⌋ / 16 : ℤ) : ℚ) * 16 ≤ ((⌊x⌋ : ℤ) : ℚ) := by
      exact_mod_cast (by omega : (⌊x⌋ / 16) * 16 ≤ ⌊x⌋)
    linarith
  · rw [div_lt_iff₀ (by norm_num : (0 : ℚ) < 16)]
    have h : ((⌊x⌋ : ℤ) : ℚ) + 1 ≤ (((⌊x⌋ / 16 : ℤ) : ℚ) + 1) * 16 := by
      exact_mod_cast (by omega : ((⌊x⌋ : ℤ) + 1) ≤ (⌊x⌋ / 16 + 1) * 16)
    linarith

/-- Horizontal component of the round trip: chunk coordinate times 16 plus
the re-normalised remainder recovers the floored coordinate. -/
theorem horizontal_roundtrip (x : ℚ) :
    (⌊x / (16 : ℚ)⌋ : ℚ) * 16 + (((⌊x⌋.tmod 16 + 16).tmod 16 : ℤ) : ℚ)
      = (⌊x⌋ : ℚ) := by
  rw [floor_div_sixteen, tmod_renorm_eq_emod]
  exact_mod_cast (by omega : (⌊x⌋ / 16) * 16 + ⌊x⌋ % 16 = ⌊x⌋)

/-- C1 (counterexample): at the absolute position (0, -1, 0) the
reconstruction from owning chunk and relative position does not recover the
floored components — the y component comes back 0, not -1, because
`relative_from_absolute` clamps y below at 0. -/
theorem c1_roundtrip_counterexample :
    ¬ ((((get_chunk_from_position_absolute ⟨0, -1, 0⟩).1 : ℚ) * (CHUNK_SIZE : ℚ)
          + (relative_from_absolute ⟨0, -1, 0⟩).x = (⌊(0 : ℚ)⌋ : ℚ)) ∧
       (relative_from_absolute ⟨0, -1, 0⟩).y = (⌊(-1 : ℚ)⌋ : ℚ) ∧
       (((get_chunk_from_position_absolute ⟨0, -1, 0⟩).2 : ℚ) * (CHUNK_SIZE : ℚ)
          + (relative_from_absolute ⟨0, -1, 0⟩).z = (⌊(0 : ℚ)⌋ : ℚ))) := by
  rintro ⟨-, h, -⟩
  have hm1 : ⌊(-1 : ℚ)⌋ = -1 := by norm_num [Int.floor_eq_iff]
  simp only [relative_from_absolute, hm1] at h
  norm_num at h

/-- C1 (amended): recombining the owning-chunk coordinate with the relative
position recovers the floored x and z components of every absolute position;
the y component of the relative position is the floored y clamped below at 0,
so the y component is recovered exactly when the floored y is non-negative. -/
theorem c1_roundtrip (p : Vec3) :
    (((get_chunk_from_position_absolute p).1 : ℚ) * (CHUNK_SIZE : ℚ)
        + (relative_from_absolute p).x = (⌊p.x⌋ : ℚ)) ∧
    (((get_chunk_from_position_absolute p).2 : ℚ) * (CHUNK_SIZE : ℚ)
        + (relative_from_absolute p).z = (⌊p.z⌋ : ℚ)) ∧
    (relative_from_absolute p).y = ((max ⌊p.y⌋ 0 : ℤ) : ℚ) ∧
    (0 ≤ ⌊p.y⌋ → (relative_from_absolute p).y = (⌊p.y⌋ : ℚ)) := by
  have hcs : ((CHUNK_SIZE : ℤ) : ℚ) = 16 := by norm_num [CHUNK_SIZE]
  refine ⟨?_, ?_, ?_, ?_⟩
  · simpa [get_chunk_from_position_absolute, relative_from_absolute, rustFmod,
      CHUNK_SIZE] using horizontal_roundtrip p.x
  · simpa [get_chunk_from_position_absolute, relative_from_absolute, rustFmod,
      CHUNK_SIZE] using horizontal_roundtrip p.z
  · rfl
  · intro h
    simp [relative_from_absolute, max_eq_left h]

/-- C1 (witness): the amended round trip evaluated at the concrete absolute
position (17, 3, 20). -/
theorem c1_roundtrip_witness :
    0 ≤ ⌊((3 : ℤ) : ℚ)⌋ ∧
    (relative_from_absolute ⟨17, ((3 : ℤ) : ℚ), 20⟩).y = (⌊((3 : ℤ) : ℚ)⌋ : ℚ) :=
  ⟨by simp, (c1_roundtrip ⟨17, ((3 : ℤ) : ℚ), 20⟩).2.2.2 (by simp)⟩

/-- The block-type enum (block_type.rs). -/
inductive BlockType
  | Grass
  | Dirt
  | Water
  | Wood
  | Leaf
  | Stone
  | Sand
deriving DecidableEq, Repr

/-- Static per-type configuration (block_type.rs): id, the three face
texture indices (lateral, top, bottom) and the translucency flag. -/
structure BlockTypeConfigs where
  id : ℕ
  textures : List ℕ
  is_translucent : Bool
deriving DecidableEq, Repr

/-- The function `BlockTypeConfigs::get` (block_type.rs). -/
def BlockTypeConfigs.get (block_type : BlockType) : BlockTypeConfigs :=
  match block_type with
  | .Grass => ⟨0, [6, 7, 8], false⟩
  | .Dirt => ⟨1, [0, 0, 0], false⟩
  | .Water => ⟨2, [1, 1, 1], true⟩
  | .Wood => ⟨3, [4, 5, 5], false⟩
  | .Leaf => ⟨4, [2, 2, 2], false⟩
  | .Stone => ⟨5, [3, 3, 3], false⟩
  | .Sand => ⟨6, [9, 9, 9], false⟩

/-- The constant `BlockType::MAX_ID`. -/
def MAX_ID : ℕ := 6

/-- The function `BlockType::get_config`. -/
def BlockType.get_config (b : BlockType) : BlockTypeConfigs := BlockTypeConfigs.get b

/-- The function `BlockType::to_id`: the configured id. -/
def BlockType.to_id (b : BlockType) : ℕ := b.get_config.id

/-- The function `BlockType::from_id`; the invalid-id panic arm is
modelled as `none`. -/
def BlockType.from_id (id : ℕ) : Option BlockType :=
  match id with
  | 0 => some .Grass
  | 1 => some .Dirt
  | 2 => some .Water
  | 3 => some .Wood
  | 4 => some .Leaf
  | 5 => some .Stone
  | 6 => some .Sand
  | _ => none

/-- C10: for every block type, `from_id` of `to_id` gives the type back and
the id is at most `MAX_ID` (6); `from_id` panics (returns `none`) on every
id greater than 6. -/
theorem c10_id_roundtrip :
    (∀ b : BlockType, BlockType.from_id b.to_id = some b ∧ b.to_id ≤ MAX_ID) ∧
    (∀ id : ℕ, MAX_ID < id → BlockType.from_id id = none) := by
  refine ⟨fun b => by cases b <;> exact ⟨rfl, by decide⟩, ?_⟩
  intro id h
  match id, h with
  | (n + 7), _ => rfl

/-- C10 (witness): the round trip holds at `Sand` and `from_id` rejects 7. -/
theorem c10_id_roundtrip_witness :
    BlockType.from_id BlockType.Sand.to_id = some BlockType.Sand ∧
    MAX_ID < 7 ∧ BlockType.from_id 7 = none :=
  ⟨(c10_id_roundtrip.1 BlockType.Sand).1, by decide,
    c10_id_roundtrip.2 7 (by decide)⟩

/-- The function `calc_vertex_ao` (effects.rs): full occlusion when both
sides are set, otherwise 3 minus the number of occupied probes. -/
def calc_vertex_ao (side1 side2 up : Bool) : ℕ :=
  if side1 && side2 then 0
  else 3 - (side1.toNat + side2.toNat + up.toNat)

/-- The function `convert_ao_u8_to_f32` (effects.rs): 1 minus the occlusion
level normalised by 3. -/
def convert_ao_u8_to_f32 (ao : ℕ) : ℚ := 1 - (ao : ℚ) / 3

/-- C5: both sides occupied gives occlusion level 0 for either corner value;
no probe occupied gives level 3; levels 0 and 3 convert to brightness 1 and
0 respectively. -/
theorem c5_ao_boundary :
    (∀ up : Bool, calc_vertex_ao true true up = 0) ∧
    calc_vertex_ao false false false = 3 ∧
    convert_ao_u8_to_f32 0 = 1 ∧
    convert_ao_u8_to_f32 3 = 0 := by
  refine ⟨by decide, by decide, ?_, ?_⟩ <;> norm_num [convert_ao_u8_to_f32]

/-- The seed fed to `StdRng::seed_from_u64` in `BlockType::from_position`:
`RNG_SEED + (y * x * z) as u64`, with the product wrapping as a `u32` and
the sum wrapping as a `u64`. The global `RNG_SEED` constant lives in the
absent `world` module and is kept as a parameter. -/
def seed_from_position (rngSeed x y z : ℕ) : ℕ :=
  (rngSeed + ((y * x * z) % 2 ^ 32)) % 2 ^ 64

/-- The function `calc_scalar` (block_type.rs): linear position of `y`
inside the band `[t0, t1]`. -/
def calc_scalar (y t0 t1 : ℕ) : ℚ := ((y : ℚ) - (t0 : ℚ)) / ((t1 : ℚ) - (t0 : ℚ))

/-- The constant `STONE_THRESHOLD` (block_type.rs). -/
def STONE_THRESHOLD : ℕ × ℕ := (15, 24)

/-- The constant `SAND_THRESHOLD` (block_type.rs); the water level constant
comes from the absent `world` module and is kept as a parameter. -/
def SAND_THRESHOLD (waterLevel : ℕ) : ℕ × ℕ := (waterLevel, waterLevel + 2)

/-- The function `BlockType::from_position` (block_type.rs). The random
draw of `StdRng` is modelled by a function `draw` of the 64-bit seed the
code constructs; a real draw lies in `[0, 1)`. -/
def from_position (draw : ℕ → ℚ) (rngSeed waterLevel : ℕ) (x y z : ℕ) :
    BlockType :=
  if y ≤ (SAND_THRESHOLD waterLevel).1 then .Sand
  else if y ≤ (SAND_THRESHOLD waterLevel).2 then
    let r := draw (seed_from_position rngSeed x y z)
    let s := calc_scalar y (SAND_THRESHOLD waterLevel).1 (SAND_THRESHOLD waterLevel).2
    if r + s > 1 then .Dirt else .Sand
  else if y < STONE_THRESHOLD.1 then .Dirt
  else if y ≤ STONE_THRESHOLD.2 then
    let r := draw (seed_from_position rngSeed x y z)
    let s := calc_scalar y STONE_THRESHOLD.1 STONE_THRESHOLD.2
    if r + s ≥ 1 then .Stone else .Dirt
  else .Stone

/-- C2: with a draw in `[0, 1)` and the sand band below the stone band (as
the spec's constants have it), `from_position` follows the band rules: in
the sand band the draw against the height scalar picks Sand or Dirt, in the
stone band it picks Dirt or Stone, below the sand band the result is Sand,
between the bands Dirt, above the stone band Stone. -/
theorem c2_height_stratification (draw : ℕ → ℚ) (rngSeed waterLevel x y z : ℕ)
    (hd0 : 0 ≤ draw (seed_from_position rngSeed x y z))
    (hd1 : draw (seed_from_position rngSeed x y z) < 1)
    (hw : waterLevel + 2 < 15) :
    (waterLevel ≤ y ∧ y ≤ waterLevel + 2 →
      from_position draw rngSeed waterLevel x y z =
        (if draw (seed_from_position rngSeed x y z)
            + calc_scalar y waterLevel (waterLevel + 2) > 1
          then .Dirt else .Sand) ∧
      (from_position draw rngSeed waterLevel x y z = .Sand ∨
        from_position draw rngSeed waterLevel x y z = .Dirt)) ∧
    (15 ≤ y ∧ y ≤ 24 →
      from_position draw rngSeed waterLevel x y z =
        (if draw (seed_from_position rngSeed x y z) + calc_scalar y 15 24 ≥ 1
          then .Stone else .Dirt) ∧
      (from_position draw rngSeed waterLevel x y z = .Stone ∨
        from_position draw rngSeed waterLevel x y z = .Dirt)) ∧
    (y < waterLevel → from_position draw rngSeed waterLevel x y z = .Sand) ∧
    (waterLevel + 2 < y ∧ y < 15 →
      from_position draw rngSeed waterLevel x y z = .Dirt) ∧
    (24 < y → from_position draw rngSeed waterLevel x y z = .Stone) := by
  refine ⟨?_, ?_, ?_, ?_, ?_⟩
  · rintro ⟨h1, h2⟩
    have hval : from_position draw rngSeed waterLevel x y z =
        (if draw (seed_from_position rngSeed x y z)
            + calc_scalar y waterLevel (waterLevel + 2) > 1
          then BlockType.Dirt else BlockType.Sand) := by
      rcases Nat.lt_or_ge waterLevel y with hy | hy
      · simp only [from_position, SAND_THRESHOLD]
        rw [if_neg (by omega : ¬ y ≤ waterLevel),
          if_pos (by omega : y ≤ waterLevel + 2)]
      · have hy' : y = waterLevel := by omega
        subst hy'
        have hs : calc_scalar y y (y + 2) = 0 := by simp [calc_scalar]
        simp only [from_position, SAND_THRESHOLD]
        rw [if_pos (le_refl y), hs,
          if_neg (by linarith : ¬ (draw (seed_from_position rngSeed x y z)
            + 0 > 1))]
    exact ⟨hval, by rw [hval]; split <;> simp⟩
  · rintro ⟨h1, h2⟩
    have hval : from_position draw rngSeed waterLevel x y z =
        (if draw (seed_from_position rngSeed x y z) + calc_scalar y 15 24 ≥ 1
          then BlockType.Stone else BlockType.Dirt) := by
      simp only [from_position, SAND_THRESHOLD, STONE_THRESHOLD]
      rw [if_neg (by omega : ¬ y ≤ waterLevel),
        if_neg (by omega : ¬ y ≤ waterLevel + 2),
        if_neg (by omega : ¬ y < 15), if_pos (by omega : y ≤ 24)]
    exact ⟨hval, by rw [hval]; split <;> simp⟩
  · intro h
    simp only [from_position, SAND_THRESHOLD]
    rw [if_pos (by omega : y ≤ waterLevel)]
  · rintro ⟨h1, h2⟩
    simp only [from_position, SAND_THRESHOLD, STONE_THRESHOLD]
    rw [if_neg (by omega : ¬ y ≤ waterLevel),
      if_neg (by omega : ¬ y ≤ waterLevel + 2), if_pos (by omega : y < 15)]
  · intro h
    simp only [from_position, SAND_THRESHOLD, STONE_THRESHOLD]
    rw [if_neg (by omega : ¬ y ≤ waterLevel),
      if_neg (by omega : ¬ y ≤ waterLevel + 2),
      if_neg (by omega : ¬ y < 15), if_neg (by omega : ¬ y ≤ 24)]

/-- C2 (witness): the stratification at drawing function constantly 1/2,
seed 0, water level 5, position (1, 6, 1): y = 6 is inside the sand band
and the draw picks Sand (1/2 + 1/2 is not above 1). -/
theorem c2_height_stratification_witness :
    (0 : ℚ) ≤ (fun _ : ℕ => (1 : ℚ) / 2) (seed_from_position 0 1 6 1) ∧
    (fun _ : ℕ => (1 : ℚ) / 2) (seed_from_position 0 1 6 1) < 1 ∧
    (5 : ℕ) + 2 < 15 ∧
    ((5 : ℕ) ≤ 6 ∧ (6 : ℕ) ≤ 5 + 2 →
      from_position (fun _ => (1 : ℚ) / 2) 0 5 1 6 1 =
        (if (fun _ : ℕ => (1 : ℚ) / 2) (seed_from_position 0 1 6 1)
            + calc_scalar 6 5 (5 + 2) > 1
          then .Dirt else .Sand) ∧
      (from_position (fun _ => (1 : ℚ) / 2) 0 5 1 6 1 = .Sand ∨
        from_position (fun _ => (1 : ℚ) / 2) 0 5 1 6 1 = .Dirt)) :=
  ⟨by norm_num, by norm_num, by norm_num,
    (c2_height_stratification (fun _ => (1 : ℚ) / 2) 0 5 1 6 1
      (by norm_num) (by norm_num) (by norm_num)).1⟩

/-- Axis-aligned collision box (collision.rs). -/
structure CollisionBox where
  min_x : ℚ
  max_x : ℚ
  min_y : ℚ
  max_y : ℚ
  min_z : ℚ
  max_z : ℚ
deriving DecidableEq, Repr

/-- The function `CollisionBox::from_block_position`: a unit cube anchored
at the given corner. -/
def CollisionBox.from_block_position (x y z : ℚ) : CollisionBox :=
  ⟨x, x + 1, y, y + 1, z, z + 1⟩

/-- A voxel block (block.rs): relative position, absolute position,
collision box and type. -/
structure Block where
  position : Vec3
  absolute_position : Vec3
  collision_box : CollisionBox
  block_type : BlockType
deriving DecidableEq, Repr

/-- The function `Block::new` (block.rs): recomputes the absolute position
from the chunk coordinate and the relative position (x and z truncated to
`i32`), and derives the collision box from it. -/
def Block.new (position : Vec3) (chunk : ℤ × ℤ) (block_type : BlockType) :
    Block :=
  let absolute_position : Vec3 :=
    ⟨((chunk.1 * (CHUNK_SIZE : ℤ) + rustCastI32 position.x : ℤ) : ℚ),
     position.y,
     ((chunk.2 * (CHUNK_SIZE : ℤ) + rustCastI32 position.z : ℤ) : ℚ)⟩
  { position := position
    absolute_position := absolute_position
    collision_box := CollisionBox.from_block_position absolute_position.x
      absolute_position.y absolute_position.z
    block_type := block_type }

/-- The function `Block::get_chunk_coords` (block.rs): floor of the
absolute horizontal components divided by `CHUNK_SIZE` — the same formula
as `get_chunk_from_position_absolute`. -/
def Block.get_chunk_coords (b : Block) : ℤ × ℤ :=
  (⌊b.absolute_position.x / (CHUNK_SIZE : ℚ)⌋,
   ⌊b.absolute_position.z / (CHUNK_SIZE : ℚ)⌋)

/-- Trunk offsets of `Tree::get_blocks` (tree.rs): three Wood cells
stacked above the anchor. -/
def tree_trunk_offsets : List Vec3 := [⟨0, 1, 0⟩, ⟨0, 2, 0⟩, ⟨0, 3, 0⟩]

/-- Leaf offsets of `Tree::get_blocks` (tree.rs): the 17-cell canopy in
source order. -/
def tree_leaf_offsets : List Vec3 :=
  [⟨0, 3, 1⟩, ⟨0, 4, 1⟩, ⟨1, 3, 1⟩, ⟨1, 4, 1⟩, ⟨-1, 3, 1⟩, ⟨-1, 4, 1⟩,
   ⟨0, 3, -1⟩, ⟨0, 4, -1⟩, ⟨1, 3, -1⟩, ⟨1, 4, -1⟩, ⟨-1, 3, -1⟩, ⟨-1, 4, -1⟩,
   ⟨1, 3, 0⟩, ⟨1, 4, 0⟩, ⟨-1, 3, 0⟩, ⟨-1, 4, 0⟩,
   ⟨0, 5, 0⟩]

/-- The function `Tree::get_blocks` (tree.rs): trunk blocks then leaf
blocks, each wrapped through `relative_from_absolute`,
`get_chunk_from_position_absolute` and `Block::new`. -/
def tree_get_blocks (position : Vec3) : List Block :=
  tree_trunk_offsets.map (fun off =>
    Block.new (relative_from_absolute (position.add off))
      (get_chunk_from_position_absolute (position.add off)) .Wood) ++
  tree_leaf_offsets.map (fun off =>
    Block.new (relative_from_absolute (position.add off))
      (get_chunk_from_position_absolute (position.add off)) .Leaf)

/-- Rust `as i32` on an integer-valued rational is the integer itself. -/
theorem rustCastI32_intCast (n : ℤ) : rustCastI32 ((n : ℤ) : ℚ) = n := by
  unfold rustCastI32
  split <;> simp

/-- The function `Block::new` applied to the conversions of a lattice point
with non-negative y recovers that lattice point as absolute position. -/
theorem block_new_absolute (a b c : ℤ) (hb : 0 ≤ b) (t : BlockType) :
    (Block.new (relative_from_absolute ⟨(a : ℚ), (b : ℚ), (c : ℚ)⟩)
      (get_chunk_from_position_absolute ⟨(a : ℚ), (b : ℚ), (c : ℚ)⟩)
      t).absolute_position = ⟨(a : ℚ), (b : ℚ), (c : ℚ)⟩ := by
  have hx : ∀ n : ℤ, ⌊((n : ℤ) : ℚ)⌋ = n := Int.floor_intCast
  have hcsQ : ((CHUNK_SIZE : ℕ) : ℚ) = 16 := by norm_num [CHUNK_SIZE]
  have hcsZ : ((CHUNK_SIZE : ℕ) : ℤ) = 16 := by norm_num [CHUNK_SIZE]
  have key : ∀ n : ℤ, n / 16 * 16 + (n.tmod 16 + 16).tmod 16 = n := by
    intro n
    rw [tmod_renorm_eq_emod]
    omega
  simp only [Block.new, relative_from_absolute, get_chunk_from_position_absolute,
    rustFmod, hx, hcsQ, hcsZ]
  rw [Vec3.mk.injEq]
  refine ⟨?_, ?_, ?_⟩
  · rw [rustCastI32_intCast, floor_div_sixteen, hx]
    exact_mod_cast key a
  · have hmax : max b 0 = b := max_eq_left hb
    rw [hmax]
  · rw [rustCastI32_intCast, floor_div_sixteen, hx]
    exact_mod_cast key c

/-- Every tree offset is a lattice vector with y offset at least 1. -/
theorem tree_offset_cases :
    ∀ off ∈ tree_trunk_offsets ++ tree_leaf_offsets,
      ∃ dxi dyi dzi : ℤ,
        off = ⟨(dxi : ℚ), (dyi : ℚ), (dzi : ℚ)⟩ ∧ 1 ≤ dyi := by
  intro off h
  fin_cases h
  · exact ⟨0, 1, 0, by norm_num, by omega⟩
  · exact ⟨0, 2, 0, by norm_num, by omega⟩
  · exact ⟨0, 3, 0, by norm_num, by omega⟩
  · exact ⟨0, 3, 1, by norm_num, by omega⟩
  · exact ⟨0, 4, 1, by norm_num, by omega⟩
  · exact ⟨1, 3, 1, by norm_num, by omega⟩
  · exact ⟨1, 4, 1, by norm_num, by omega⟩
  · exact ⟨-1, 3, 1, by norm_num, by omega⟩
  · exact ⟨-1, 4, 1, by norm_num, by omega⟩
  · exact ⟨0, 3, -1, by norm_num, by omega⟩
  · exact ⟨0, 4, -1, by norm_num, by omega⟩
  · exact ⟨1, 3, -1, by norm_num, by omega⟩
  · exact ⟨1, 4, -1, by norm_num, by omega⟩
  · exact ⟨-1, 3, -1, by norm_num, by omega⟩
  · exact ⟨-1, 4, -1, by norm_num, by omega⟩
  · exact ⟨1, 3, 0, by norm_num, by omega⟩
  · exact ⟨1, 4, 0, by norm_num, by omega⟩
  · exact ⟨-1, 3, 0, by norm_num, by omega⟩
  · exact ⟨-1, 4, 0, by norm_num, by omega⟩
  · exact ⟨0, 5, 0, by norm_num, by omega⟩

/-- A tree block built from a lattice anchor with non-negative y carries
the anchor-plus-offset point as absolute position. -/
theorem tree_block_absolute (a b c : ℤ) (hb : 0 ≤ b) (off : Vec3)
    (hoff : off ∈ tree_trunk_offsets ++ tree_leaf_offsets) (t : BlockType) :
    (Block.new
        (relative_from_absolute (Vec3.add ⟨(a : ℚ), (b : ℚ), (c : ℚ)⟩ off))
        (get_chunk_from_position_absolute
          (Vec3.add ⟨(a : ℚ), (b : ℚ), (c : ℚ)⟩ off)) t).absolute_position
      = Vec3.add ⟨(a : ℚ), (b : ℚ), (c : ℚ)⟩ off := by
  obtain ⟨dxi, dyi, dzi, rfl, hdy⟩ := tree_offset_cases off hoff
  have hv : Vec3.add ⟨(a : ℚ), (b : ℚ), (c : ℚ)⟩
        ⟨(dxi : ℚ), (dyi : ℚ), (dzi : ℚ)⟩
      = ⟨((a + dxi : ℤ) : ℚ), ((b + dyi : ℤ) : ℚ), ((c + dzi : ℤ) : ℚ)⟩ := by
    simp [Vec3.add]
  rw [hv]
  exact block_new_absolute _ _ _ (by omega) t

/-- C7: a tree anchored at a lattice point with non-negative y consists of
exactly 20 blocks — three Wood then seventeen Leaf — whose absolute
positions are the anchor plus the fixed trunk and canopy offsets, and each
block's relative position and owning-chunk coordinate are derived from its
own absolute position (so blocks landing in a neighbouring chunk are kept,
not clipped). -/
theorem c7_tree_shape (a b c : ℤ) (hb : 0 ≤ b) :
    (tree_get_blocks ⟨(a : ℚ), (b : ℚ), (c : ℚ)⟩).length = 20 ∧
    (tree_get_blocks ⟨(a : ℚ), (b : ℚ), (c : ℚ)⟩).map Block.block_type
      = List.replicate 3 BlockType.Wood ++ List.replicate 17 BlockType.Leaf ∧
    (tree_get_blocks ⟨(a : ℚ), (b : ℚ), (c : ℚ)⟩).map Block.absolute_position
      = (tree_trunk_offsets ++ tree_leaf_offsets).map
          (Vec3.add ⟨(a : ℚ), (b : ℚ), (c : ℚ)⟩) ∧
    ∀ blk ∈ tree_get_blocks ⟨(a : ℚ), (b : ℚ), (c : ℚ)⟩,
      blk.position = relative_from_absolute blk.absolute_position ∧
      blk.get_chunk_coords
        = get_chunk_from_position_absolute blk.absolute_position := by
  refine ⟨?_, ?_, ?_, ?_⟩
  · simp [tree_get_blocks, tree_trunk_offsets, tree_leaf_offsets]
  · simp [tree_get_blocks, tree_trunk_offsets, tree_leaf_offsets, Block.new,
      List.replicate]
  · rw [tree_get_blocks]
    rw [List.map_append, List.map_append, List.map_map, List.map_map]
    congr 1
    · refine List.map_congr_left ?_
      intro off hoff
      exact tree_block_absolute a b c hb off (List.mem_append_left _ hoff) _
    · refine List.map_congr_left ?_
      intro off hoff
      exact tree_block_absolute a b c hb off (List.mem_append_right _ hoff) _
  · intro blk hblk
    rw [tree_get_blocks] at hblk
    rcases List.mem_append.mp hblk with h | h <;>
      obtain ⟨off, hoff, rfl⟩ := List.mem_map.mp h
    · refine ⟨?_, rfl⟩
      rw [tree_block_absolute a b c hb off (List.mem_append_left _ hoff)]
      rfl
    · refine ⟨?_, rfl⟩
      rw [tree_block_absolute a b c hb off (List.mem_append_right _ hoff)]
      rfl

/-- C7 (witness): the tree anchored at the lattice point (1, 2, 3) has 20
blocks. -/
theorem c7_tree_shape_witness :
    (0 : ℤ) ≤ 2 ∧
    (tree_get_blocks ⟨((1 : ℤ) : ℚ), ((2 : ℤ) : ℚ), ((3 : ℤ) : ℚ)⟩).length = 20 :=
  ⟨by decide, (c7_tree_shape 1 2 3 (by decide)).1⟩

/-- C6: generation is deterministic — `from_position` depends only on its
inputs through the seed the code derives from them, so two draw streams
that agree at that seed give the same block type; and `Tree::get_blocks`,
a pure function, returns the same block list (same length, order,
positions, chunk coordinates and types) on every call with the same
anchor. -/
theorem c6_determinism (draw1 draw2 : ℕ → ℚ) (rngSeed waterLevel x y z : ℕ)
    (h : draw1 (seed_from_position rngSeed x y z)
        = draw2 (seed_from_position rngSeed x y z)) :
    from_position draw1 rngSeed waterLevel x y z
      = from_position draw2 rngSeed waterLevel x y z ∧
    ∀ p : Vec3, tree_get_blocks p = tree_get_blocks p := by
  refine ⟨?_, fun _ => rfl⟩
  simp only [from_position, h]

/-- C6 (witness): determinism applied at two literal draw streams agreeing
at the relevant seed, water level 5 and position (1, 6, 1). -/
theorem c6_determinism_witness :
    (fun _ : ℕ => (1 : ℚ) / 2) (seed_from_position 0 1 6 1)
      = (fun _ : ℕ => (2 : ℚ) / 4) (seed_from_position 0 1 6 1) ∧
    from_position (fun _ => (1 : ℚ) / 2) 0 5 1 6 1
      = from_position (fun _ => (2 : ℚ) / 4) 0 5 1 6 1 :=
  ⟨by norm_num,
    (c6_determinism (fun _ => (1 : ℚ) / 2) (fun _ => (2 : ℚ) / 4) 0 5 1 6 1
      (by norm_num)).1⟩

/-- The chunk state touched by the store operations (chunk.rs): the column
grid (indexed by `local_x * CHUNK_SIZE + local_z`, each column a vertical
list of optional blocks) and the modified flag. -/
structure ChunkData where
  blocks : List (List (Option Block))
  modified : Bool

/-- The column index `(position.x * CHUNK_SIZE as f32) + position.z` cast
to `usize`, as computed by `add_block`, `remove_block` and
`get_block_at_relative`. -/
def column_index (p : Vec3) : ℕ :=
  rustCastUsize (p.x * ((CHUNK_SIZE : ℕ) : ℚ) + p.z)

/-- The method `Chunk::add_block` (chunk.rs). The `expect` panic on a
column index outside the grid is modelled as `none`; inside, the column is
resized (padding with `None`) whenever the vertical index reaches past its
length, the block is stored, and the modified flag is set when requested. -/
def add_block (c : ChunkData) (block : Block) (modify_status : Bool) :
    Option ChunkData :=
  let i := column_index block.position
  match c.blocks[i]? with
  | none => none
  | some y_blocks =>
    let yIdx := rustCastUsize block.position.y
    let grown := if y_blocks.length ≤ yIdx
      then y_blocks ++ List.replicate (yIdx + 1 - y_blocks.length)
        (none : Option Block)
      else y_blocks
    some { blocks := c.blocks.set i (grown.set yIdx (some block))
           modified := if modify_status then true else c.modified }

/-- The method `Chunk::remove_block` (chunk.rs). Both the `expect` panic on
a bad column index and the slice-indexing panic on a vertical index past the
column length are modelled as `none`; otherwise the slot is cleared and the
modified flag set unconditionally. -/
def remove_block (c : ChunkData) (p : Vec3) : Option ChunkData :=
  let i := column_index p
  match c.blocks[i]? with
  | none => none
  | some y_blocks =>
    let yIdx := rustCastUsize p.y
    if yIdx < y_blocks.length then
      some { blocks := c.blocks.set i (y_blocks.set yIdx none)
             modified := true }
    else none

/-- The method `Chunk::get_block_at_relative` (chunk.rs): `None` when the
column or the vertical slot is absent, otherwise the slot content. -/
def get_block_at_relative (c : ChunkData) (p : Vec3) : Option Block :=
  match c.blocks[column_index p]? with
  | none => none
  | some y_blocks =>
    match y_blocks[rustCastUsize p.y]? with
    | none => none
    | some slot => slot

/-- Postcondition of a successful `add_block`: some final state stores the
block at the vertical index in the addressed column, grows that column to
`max (old length) (y+1)` (padding fresh slots with `None`, preserving all
other old slots, truncating nothing), leaves every other column unchanged,
and sets the modified flag exactly when requested. -/
def add_block_ok (c : ChunkData) (block : Block) (ms : Bool)
    (old : List (Option Block)) : Prop :=
  ∃ c' newCol,
    add_block c block ms = some c' ∧
    c'.blocks[column_index block.position]? = some newCol ∧
    (∀ j, j ≠ column_index block.position → c'.blocks[j]? = c.blocks[j]?) ∧
    newCol.length = max old.length (rustCastUsize block.position.y + 1) ∧
    newCol[rustCastUsize block.position.y]? = some (some block) ∧
    (∀ j, j ≠ rustCastUsize block.position.y → j < old.length →
      newCol[j]? = old[j]?) ∧
    (∀ j, j ≠ rustCastUsize block.position.y → old.length ≤ j →
      j < newCol.length → newCol[j]? = some none) ∧
    c'.modified = (if ms then true else c.modified)

/-- C4: on a grid of `CHUNK_SIZE²` columns, `add_block` stores the block at
its vertical index after growing the addressed column to length `y+1`
(padding with empty slots, never truncating) when `y` reaches past the
current length, and sets the modified flag iff requested; a column index
outside `[0, CHUNK_SIZE²)` makes the call panic (`none`). -/
theorem c4_add_block (c : ChunkData) (block : Block) (ms : Bool)
    (hlen : c.blocks.length = CHUNK_SIZE * CHUNK_SIZE) :
    (∀ old, c.blocks[column_index block.position]? = some old →
      add_block_ok c block ms old) ∧
    (CHUNK_SIZE * CHUNK_SIZE ≤ column_index block.position →
      add_block c block ms = none) := by
  constructor
  · intro old hold
    have hil : column_index block.position < c.blocks.length := by
      by_contra hcon
      rw [List.getElem?_eq_none (by omega)] at hold
      exact Option.noConfusion hold
    have hstep : add_block c block ms = some
        ⟨c.blocks.set (column_index block.position)
          ((if old.length ≤ rustCastUsize block.position.y
            then old ++ List.replicate
              (rustCastUsize block.position.y + 1 - old.length)
              (none : Option Block)
            else old).set (rustCastUsize block.position.y) (some block)),
         if ms then true else c.modified⟩ := by
      simp only [add_block, hold]
    refine ⟨_, (if old.length ≤ rustCastUsize block.position.y
        then old ++ List.replicate
          (rustCastUsize block.position.y + 1 - old.length)
          (none : Option Block)
        else old).set (rustCastUsize block.position.y) (some block),
      hstep, ?_, ?_, ?_, ?_, ?_, ?_, ?_⟩
    · exact List.getElem?_set_self hil
    · intro j hj
      exact List.getElem?_set_ne (Ne.symm hj)
    · rw [List.length_set]
      split
      · simp only [List.length_append, List.length_replicate]
        omega
      · omega
    · apply List.getElem?_set_self
      split
      · simp only [List.length_append, List.length_replicate]
        omega
      · omega
    · intro j hjy hjold
      rw [List.getElem?_set_ne (Ne.symm hjy)]
      split
      · exact List.getElem?_append_left hjold
      · rfl
    · intro j hjy hjold hjlen
      rw [List.length_set] at hjlen
      rw [List.getElem?_set_ne (Ne.symm hjy)]
      split
      · next hgrow =>
        rw [if_pos hgrow] at hjlen
        simp only [List.length_append, List.length_replicate] at hjlen
        rw [List.getElem?_append_right hjold, List.getElem?_replicate]
        rw [if_pos (by omega)]
      · next hgrow =>
        rw [if_neg hgrow] at hjlen
        omega
    · rfl
  · intro hge
    have : c.blocks[column_index block.position]? = none :=
      List.getElem?_eq_none (by omega)
    simp only [add_block, this]

/-- C4 (witness): adding a block with relative position (0, 2, 0) to a
fresh 256-column grid with empty columns. -/
theorem c4_add_block_witness :
    ((List.replicate (CHUNK_SIZE * CHUNK_SIZE) ([] : List (Option Block))).length
        = CHUNK_SIZE * CHUNK_SIZE) ∧
    ((List.replicate (CHUNK_SIZE * CHUNK_SIZE)
        ([] : List (Option Block)))[column_index
          (Block.new ⟨0, 2, 0⟩ (0, 0) BlockType.Dirt).position]? = some []) ∧
    add_block_ok
      ⟨List.replicate (CHUNK_SIZE * CHUNK_SIZE) [], false⟩
      (Block.new ⟨0, 2, 0⟩ (0, 0) BlockType.Dirt) true [] := by
  have hcol : column_index (Block.new ⟨0, 2, 0⟩ (0, 0) BlockType.Dirt).position
      = 0 := by
    have : (Block.new ⟨0, 2, 0⟩ (0, 0) BlockType.Dirt).position = ⟨0, 2, 0⟩ := rfl
    rw [this]
    norm_num [column_index, rustCastUsize, CHUNK_SIZE]
  have hcell : ((List.replicate (CHUNK_SIZE * CHUNK_SIZE)
      ([] : List (Option Block)))[column_index
        (Block.new ⟨0, 2, 0⟩ (0, 0) BlockType.Dirt).position]?
      = some []) := by
    rw [hcol, List.getElem?_replicate]
    norm_num [CHUNK_SIZE]
  refine ⟨by simp, hcell, ?_⟩
  exact (c4_add_block ⟨List.replicate (CHUNK_SIZE * CHUNK_SIZE) [], false⟩
    (Block.new ⟨0, 2, 0⟩ (0, 0) BlockType.Dirt) true (by simp)).1 [] hcell

/-- Postcondition of a successful `remove_block`: the slot is cleared and
the modified flag is set unconditionally, whether or not the slot held a
block. -/
def remove_block_ok (c : ChunkData) (p : Vec3)
    (col : List (Option Block)) : Prop :=
  ∃ c', remove_block c p = some c' ∧
    c'.modified = true ∧
    c'.blocks = c.blocks.set (column_index p)
      (col.set (rustCastUsize p.y) none) ∧
    get_block_at_relative c' p = none

/-- C9: with the column index in bounds, a vertical index at or beyond the
column's length makes `remove_block` panic (`none`) while
`get_block_at_relative` quietly answers `none`; when the slot exists,
`remove_block` clears it and sets the modified flag unconditionally, even
if the slot was already empty. -/
theorem c9_remove_vs_get (c : ChunkData) (p : Vec3)
    (col : List (Option Block))
    (hcol : c.blocks[column_index p]? = some col) :
    (col.length ≤ rustCastUsize p.y →
      remove_block c p = none ∧ get_block_at_relative c p = none) ∧
    (rustCastUsize p.y < col.length → remove_block_ok c p col) := by
  constructor
  · intro hy
    constructor
    · simp only [remove_block, hcol]
      rw [if_neg (by omega)]
    · simp only [get_block_at_relative, hcol]
      rw [List.getElem?_eq_none hy]
  · intro hy
    have hil : column_index p < c.blocks.length := by
      by_contra hcon
      rw [List.getElem?_eq_none (by omega)] at hcol
      exact Option.noConfusion hcol
    refine ⟨⟨c.blocks.set (column_index p)
        (col.set (rustCastUsize p.y) none), true⟩, ?_, rfl, rfl, ?_⟩
    · simp only [remove_block, hcol]
      rw [if_pos hy]
    · simp only [get_block_at_relative, List.getElem?_set_self hil]
      rw [List.getElem?_set_self hy]

/-- C9 (witness): a single-column grid holding one empty slot, probed at
relative position (0, 1, 0) (vertical index past the column) and at
(0, 0, 0) (existing, already empty slot). -/
theorem c9_remove_vs_get_witness :
    (([[none]] : List (List (Option Block)))[column_index ⟨0, 1, 0⟩]?
        = some [none]) ∧
    ([none] : List (Option Block)).length ≤ rustCastUsize (1 : ℚ) ∧
    (remove_block ⟨[[none]], false⟩ ⟨0, 1, 0⟩ = none ∧
      get_block_at_relative ⟨[[none]], false⟩ ⟨0, 1, 0⟩ = none) ∧
    rustCastUsize (0 : ℚ) < ([none] : List (Option Block)).length ∧
    remove_block_ok ⟨[[none]], false⟩ ⟨0, 0, 0⟩ [none] := by
  have hci1 : column_index ⟨0, 1, 0⟩ = 0 := by
    norm_num [column_index, rustCastUsize, CHUNK_SIZE]
  have hci0 : column_index ⟨0, 0, 0⟩ = 0 := by
    norm_num [column_index, rustCastUsize, CHUNK_SIZE]
  have hy1 : rustCastUsize (1 : ℚ) = 1 := by
    norm_num [rustCastUsize]
  have hy0 : rustCastUsize (0 : ℚ) = 0 := by
    norm_num [rustCastUsize]
  have hc1 : (([[none]] : List (List (Option Block)))[column_index ⟨0, 1, 0⟩]?
      = some [none]) := by rw [hci1]; rfl
  have hc0 : (([[none]] : List (List (Option Block)))[column_index ⟨0, 0, 0⟩]?
      = some [none]) := by rw [hci0]; rfl
  refine ⟨hc1, by rw [hy1]; simp, ?_, by rw [hy0]; simp, ?_⟩
  · exact (c9_remove_vs_get ⟨[[none]], false⟩ ⟨0, 1, 0⟩ [none] hc1).1
      (by show ([none] : List (Option Block)).length ≤ rustCastUsize (1 : ℚ)
          rw [hy1]; simp)
  · exact (c9_remove_vs_get ⟨[[none]], false⟩ ⟨0, 0, 0⟩ [none] hc0).2
      (by show rustCastUsize (0 : ℚ) < ([none] : List (Option Block)).length
          rw [hy0]; simp)

/-- The terrain phase of `create_blocks_data` (chunk.rs) for one column:
one block per level `0..=y_top`, classified by `BlockType::from_position`
with the top-level Dirt promoted to Grass. -/
def terrain_column (draw : ℕ → ℚ) (rngSeed waterLevel : ℕ) (cx cz : ℤ)
    (x z y_top : ℕ) : List (Option Block) :=
  (List.range (y_top + 1)).map fun (y : ℕ) =>
    some (Block.new ⟨(x : ℚ), (y : ℚ), (z : ℚ)⟩ (cx, cz)
      (if from_position draw rngSeed waterLevel x y z = .Dirt ∧ y = y_top
        then .Grass else from_position draw rngSeed waterLevel x y z))

/-- The water phase of `create_blocks_data` (chunk.rs) for one column: the
loop `for y in curr.len()..=WATER_HEIGHT_LEVEL` pushing a Water block
whenever the slot is still missing. -/
def water_fill (waterLevel : ℕ) (mk : ℕ → Option Block)
    (curr : List (Option Block)) : List (Option Block) :=
  (List.range' curr.length (waterLevel + 1 - curr.length)).foldl
    (fun acc y => if (acc[y]?).isNone then acc ++ [mk y] else acc) curr

/-- One column as generated by `create_blocks_data`: terrain up to the
height value, then the water fill. -/
def gen_column (draw : ℕ → ℚ) (rngSeed waterLevel : ℕ) (cx cz : ℤ)
    (x z y_top : ℕ) : List (Option Block) :=
  water_fill waterLevel
    (fun (y : ℕ) => some (Block.new ⟨(x : ℚ), (y : ℚ), (z : ℚ)⟩ (cx, cz) .Water))
    (terrain_column draw rngSeed waterLevel cx cz x z y_top)

/-- The function `create_blocks_data` (chunk.rs): a `CHUNK_SIZE²`-column
grid whose column `x * CHUNK_SIZE + z` is generated from the height value
at `(x, z)`. The loop writes column `x * CHUNK_SIZE + z` for `x` and `z`
in `0..CHUNK_SIZE`, so the grid is that family indexed linearly; the
noise-derived height (a float `powf` remap of the noise sample) is kept as
the function parameter `height`. -/
def create_blocks_data (draw : ℕ → ℚ) (rngSeed waterLevel : ℕ)
    (height : ℕ → ℕ → ℕ) (cx cz : ℤ) : List (List (Option Block)) :=
  (List.range (CHUNK_SIZE * CHUNK_SIZE)).map fun i =>
    gen_column draw rngSeed waterLevel cx cz (i / CHUNK_SIZE) (i % CHUNK_SIZE)
      (height (i / CHUNK_SIZE) (i % CHUNK_SIZE))

/-- `from_position` never answers Water: every branch yields Sand, Dirt or
Stone. -/
theorem from_position_ne_water (draw : ℕ → ℚ) (rngSeed waterLevel x y z : ℕ) :
    from_position draw rngSeed waterLevel x y z ≠ .Water := by
  simp only [from_position]
  split_ifs <;> simp

/-- The water loop always finds the probed slot missing (it probes exactly
at the running length), so it appends one made block per level. -/
theorem water_foldl_eq (mk : ℕ → Option Block) :
    ∀ (n s : ℕ) (acc : List (Option Block)), acc.length = s →
      (List.range' s n).foldl
        (fun acc y => if (acc[y]?).isNone then acc ++ [mk y] else acc) acc
      = acc ++ (List.range' s n).map mk := by
  intro n
  induction n with
  | zero =>
    intro s acc h
    simp
  | succ n ih =>
    intro s acc h
    rw [List.range'_succ]
    simp only [List.foldl_cons, List.map_cons]
    have hnone : acc[s]? = none := List.getElem?_eq_none (by omega)
    rw [hnone]
    simp only [Option.isNone_none, if_true]
    rw [ih (s + 1) (acc ++ [mk s]) (by simp [h])]
    simp [List.append_assoc]

/-- The generated column is the terrain followed by one Water block per
missing level up to the water height. -/
theorem gen_column_eq (draw : ℕ → ℚ) (rngSeed waterLevel : ℕ) (cx cz : ℤ)
    (x z y_top : ℕ) :
    gen_column draw rngSeed waterLevel cx cz x z y_top =
      terrain_column draw rngSeed waterLevel cx cz x z y_top ++
        (List.range' (y_top + 1) (waterLevel + 1 - (y_top + 1))).map
          (fun (y : ℕ) => some (Block.new ⟨(x : ℚ), (y : ℚ), (z : ℚ)⟩ (cx, cz)
            .Water)) := by
  have hlen : (terrain_column draw rngSeed waterLevel cx cz x z y_top).length
      = y_top + 1 := by
    simp [terrain_column]
  rw [gen_column, water_fill, water_foldl_eq _ _ _ _ rfl, hlen]

/-- Column lookup in the generated grid. -/
theorem create_blocks_data_get (draw : ℕ → ℚ) (rngSeed waterLevel : ℕ)
    (height : ℕ → ℕ → ℕ) (cx cz : ℤ) (x z : ℕ)
    (hx : x < CHUNK_SIZE) (hz : z < CHUNK_SIZE) :
    (create_blocks_data draw rngSeed waterLevel height cx cz)[x
        * CHUNK_SIZE + z]?
      = some (gen_column draw rngSeed waterLevel cx cz x z (height x z)) := by
  have hxz : x * CHUNK_SIZE + z < CHUNK_SIZE * CHUNK_SIZE := by
    simp only [CHUNK_SIZE] at hx hz ⊢
    omega
  have hdiv : (x * CHUNK_SIZE + z) / CHUNK_SIZE = x := by
    simp only [CHUNK_SIZE] at hz ⊢
    omega
  have hmod : (x * CHUNK_SIZE + z) % CHUNK_SIZE = z := by
    simp only [CHUNK_SIZE] at hz ⊢
    omega
  rw [create_blocks_data, List.getElem?_map, List.getElem?_range hxz,
    Option.map_some']
  rw [hdiv, hmod]

/-- The water-fallback property of one generated chunk column: the column
exists; if its terrain top is below the water level it holds Water at
every height from the top plus one through the water level; terrain slots
(height at most the top) always hold a non-Water block, so Water never
replaces them; and a column whose terrain top is at or above the water
level holds no Water at all. -/
def water_fill_ok (draw : ℕ → ℚ) (rngSeed waterLevel : ℕ)
    (height : ℕ → ℕ → ℕ) (cx cz : ℤ) (x z : ℕ) : Prop :=
  ∃ col,
    (create_blocks_data draw rngSeed waterLevel height cx cz)[x
        * CHUNK_SIZE + z]? = some col ∧
    (height x z < waterLevel →
      ∀ y, height x z + 1 ≤ y → y ≤ waterLevel →
        ∃ b, col[y]? = some (some b) ∧ b.block_type = .Water) ∧
    (∀ y, y ≤ height x z →
      ∃ b, col[y]? = some (some b) ∧ b.block_type ≠ .Water) ∧
    (waterLevel ≤ height x z →
      ∀ b : Block, some b ∈ col → b.block_type ≠ .Water)

/-- C3: in every generated chunk, each column whose terrain top lies below
the water level is filled with Water exactly from the top plus one through
the water level, Water never replaces a terrain slot, and a column whose
terrain top reaches the water level receives no Water. -/
theorem c3_water_fill (draw : ℕ → ℚ) (rngSeed waterLevel : ℕ)
    (height : ℕ → ℕ → ℕ) (cx cz : ℤ) (x z : ℕ)
    (hx : x < CHUNK_SIZE) (hz : z < CHUNK_SIZE) :
    water_fill_ok draw rngSeed waterLevel height cx cz x z := by
  refine ⟨_, create_blocks_data_get draw rngSeed waterLevel height cx cz x z
    hx hz, ?_, ?_, ?_⟩
  · intro htop y hy1 hy2
    rw [gen_column_eq]
    have hterr : (terrain_column draw rngSeed waterLevel cx cz x z
        (height x z)).length = height x z + 1 := by
      simp [terrain_column]
    have heq : (terrain_column draw rngSeed waterLevel cx cz x z (height x z)
          ++ (List.range' (height x z + 1)
              (waterLevel + 1 - (height x z + 1))).map
            (fun (w : ℕ) => some (Block.new ⟨(x : ℚ), (w : ℚ), (z : ℚ)⟩
              (cx, cz) .Water)))[y]?
        = some (some (Block.new ⟨(x : ℚ), (y : ℚ), (z : ℚ)⟩ (cx, cz)
            .Water)) := by
      rw [List.getElem?_append_right (by rw [hterr]; omega), hterr,
        List.getElem?_map, List.getElem?_range' _ _ (by omega),
        Option.map_some']
      have harg : height x z + 1 + 1 * (y - (height x z + 1)) = y := by omega
      rw [harg]
    exact ⟨_, heq, rfl⟩
  · intro y hy
    rw [gen_column_eq]
    have hterr : (terrain_column draw rngSeed waterLevel cx cz x z
        (height x z)).length = height x z + 1 := by
      simp [terrain_column]
    rw [List.getElem?_append_left (by rw [hterr]; omega), terrain_column,
      List.getElem?_map, List.getElem?_range (by omega), Option.map_some']
    refine ⟨_, rfl, ?_⟩
    show (if from_position draw rngSeed waterLevel x y z = .Dirt ∧
        y = height x z then BlockType.Grass
      else from_position draw rngSeed waterLevel x y z) ≠ .Water
    split
    · simp
    · exact from_position_ne_water draw rngSeed waterLevel x y z
  · intro htop b hb
    rw [gen_column_eq, show waterLevel + 1 - (height x z + 1) = 0 by omega]
      at hb
    simp only [List.range', List.map_nil, List.append_nil, terrain_column]
      at hb
    obtain ⟨y, hy, hyb⟩ := List.mem_map.mp hb
    have hbb := Option.some.inj hyb
    rw [← hbb]
    show (if from_position draw rngSeed waterLevel x y z = .Dirt ∧
        y = height x z then BlockType.Grass
      else from_position draw rngSeed waterLevel x y z) ≠ .Water
    split
    · simp
    · exact from_position_ne_water draw rngSeed waterLevel x y z

/-- C3 (witness): column (0, 0) of the chunk at (0, 0) with constant
height 3, water level 5 and a constant draw. -/
theorem c3_water_fill_witness :
    (0 : ℕ) < CHUNK_SIZE ∧
    water_fill_ok (fun _ => (1 : ℚ) / 2) 0 5 (fun _ _ => 3) 0 0 0 0 :=
  ⟨by decide,
    c3_water_fill (fun _ => (1 : ℚ) / 2) 0 5 (fun _ _ => 3) 0 0 0 0
      (by decide) (by decide)⟩

/-- Componentwise subtraction of `glam::Vec3`. -/
def Vec3.sub (a b : Vec3) : Vec3 := ⟨a.x - b.x, a.y - b.y, a.z - b.z⟩

/-- Dot product of `glam::Vec3`. -/
def Vec3.dot (a b : Vec3) : ℚ := a.x * b.x + a.y * b.y + a.z * b.z

/-- The structure `Plane` (utils.rs): a point on the plane and its
normal. -/
structure Plane where
  point : Vec3
  normal : Vec3

/-- The method `Plane::signed_plane_dist` (utils.rs). -/
def signed_plane_dist (pl : Plane) (point : Vec3) : ℚ :=
  (point.sub pl.point).dot pl.normal

/-- The four horizontal chunk corners probed by `is_visible` (chunk.rs),
each taken at y = 0. -/
def chunk_points (cx cz : ℤ) : List Vec3 :=
  [⟨(cx : ℚ) * (CHUNK_SIZE : ℕ), 0, (cz : ℚ) * (CHUNK_SIZE : ℕ)⟩,
   ⟨((cx : ℚ) + 1) * (CHUNK_SIZE : ℕ), 0, (cz : ℚ) * (CHUNK_SIZE : ℕ)⟩,
   ⟨(cx : ℚ) * (CHUNK_SIZE : ℕ), 0, ((cz : ℚ) + 1) * (CHUNK_SIZE : ℕ)⟩,
   ⟨((cx : ℚ) + 1) * (CHUNK_SIZE : ℕ), 0, ((cz : ℚ) + 1) * (CHUNK_SIZE : ℕ)⟩]

/-- The method `Chunk::is_visible` (chunk.rs), abstracted over the four
camera planes it constructs (far, near, left, right, in the order the code
tests them): every plane must see at least one chunk corner at
non-negative signed distance. -/
def is_visible (farP nearP leftP rightP : Plane) (cx cz : ℤ) : Bool :=
  [farP, nearP, leftP, rightP].all fun p =>
    (chunk_points cx cz).any fun q => decide (0 ≤ signed_plane_dist p q)

/-- C8: `is_visible` answers true exactly when every one of the four
planes has some chunk corner (at y = 0) at non-negative signed distance;
so a chunk all of whose corners lie at negative distance to a single plane
is excluded, and a chunk with a corner on the non-negative side of every
plane is included. -/
theorem c8_frustum_visibility (farP nearP leftP rightP : Plane)
    (cx cz : ℤ) :
    is_visible farP nearP leftP rightP cx cz = true ↔
      ∀ pl ∈ [farP, nearP, leftP, rightP],
        ∃ corner ∈ chunk_points cx cz, 0 ≤ signed_plane_dist pl corner := by
  simp [is_visible, List.all_eq_true, List.any_eq_true]

end Voxel
